import Mathlib

/-!
Verification of the MixMatch-with-optimal-transport batch construction
algorithm of `src/mixmatch.py` (`generate_noise`, `noisy_augment`,
`mixmatch_ot1d`), by a shallow embedding in Lean 4.

Modelling decisions:
* a numpy 2-D array is a `Mat := List (List ℚ)` (a list of rows);
* the normal noise source (`np.random.normal`) is an explicit stream of
  scalar draws `RNG`, threaded through the computation; `np.random.normal
  (size=(n,m), scale=s)` consumes `n*m` consecutive draws, scaled by `s`;
* the predictor (`model`) is a pure function parameter `Mat → Mat`;
* the external mixup routine (`mixup_ot1d`) is an opaque function
  parameter;
* the shuffle capability (`sklearn.utils.shuffle`) is an explicit
  permutation parameter `perm : List ℕ` applied jointly to both arrays,
  after sklearn's consistent-length check (a `ValueError`, modelled as
  `Err.invalidArgument`, when the two row counts differ);
* `Uaugs[-1]` on an empty list is Python's `IndexError`, modelled as
  `Err.indexError`;
* invocations of the external routines are recorded in an event trace, so
  that "the predictor was / was not invoked before the failure" is a
  statement about the trace.
-/

abbrev Row := List ℚ
abbrev Mat := List Row

/-- The shape of a matrix as the list of its row lengths. -/
def shapeL (A : Mat) : List ℕ := A.map List.length

/-- Column count of a (rectangular) matrix: length of its first row. -/
def matCols (A : Mat) : ℕ := (A.headD []).length

/-- A matrix is rectangular when every row has the column count. -/
def isRect (A : Mat) : Prop := ∀ r ∈ A, r.length = matCols A

instance (A : Mat) : Decidable (isRect A) := by
  unfold isRect; infer_instance

/-- Elementwise addition of two matrices (numpy `X + N` for same-shape
arrays). -/
def matAdd (A B : Mat) : Mat := List.zipWith (List.zipWith (· + ·)) A B

/-- The noise source: a stream `ω` of standard-normal scalar draws and the
position of the next unconsumed draw.  Seeding numpy's generator fixes
`ω`. -/
structure RNG where
  ω : ℕ → ℚ
  pos : ℕ

/-- `np.random.normal(size=(n,m), scale=s)`: an `n × m` matrix whose
entries are the next `n*m` draws of the stream, each scaled by `s`. -/
def normalSample (n m : ℕ) (scale : ℚ) (g : RNG) : Mat × RNG :=
  ((List.range n).map fun i =>
      (List.range m).map fun j => scale * g.ω (g.pos + i * m + j),
   ⟨g.ω, g.pos + n * m⟩)

/-- `generate_noise(X, stddev)`: noise with the shape of `X`
(`np.random.normal(size=X.shape, scale=stddev)`). -/
def generate_noise (X : Mat) (stddev : ℚ) (g : RNG) : Mat × RNG :=
  normalSample X.length (matCols X) stddev g

/-- `noisy_augment(X, stddev, K)`:
`[X + generate_noise(X, stddev=stddev) for i in range(K)]`, the noise of
each copy drawn independently (in order) from the stream. -/
def noisy_augment (X : Mat) (stddev : ℚ) : ℕ → RNG → List Mat × RNG
  | 0, g => ([], g)
  | k + 1, g =>
      let p := generate_noise X stddev g
      let rest := noisy_augment X stddev k p.2
      (matAdd X p.1 :: rest.1, rest.2)

/-- Ascending sort of one row (numpy's in-place `sort` along an axis sorts
ascending). -/
def sortRow (r : Row) : Row := List.insertionSort (· ≤ ·) r

/-- `Q.sort(axis=1)`: sort every row ascending. -/
def sortRows (A : Mat) : Mat := A.map sortRow

/-- `np.concatenate(ms, axis=1)`: joins matrices side by side, row by
row. -/
def hconcat : List Mat → Mat
  | [] => []
  | [A] => A
  | A :: B :: rest => List.zipWith (· ++ ·) A (hconcat (B :: rest))

/-- Lines 94–100 of `mixmatch.py`: map the predictor over all augmented
copies, concatenate the per-copy label columns side by side, then sort
each row ascending (`Q = np.concatenate(preds, axis=1); Q.sort(axis=1)`). -/
def aggregateQ (model : Mat → Mat) (augs : List Mat) : Mat :=
  sortRows (hconcat (augs.map model))

/-- Line 103: `W = np.concatenate((Xhat, Uhat), axis=0)`. -/
def buildW (Xhat Uhat : Mat) : Mat := Xhat ++ Uhat

/-- Lines 106–107: `Wlabels = Y.tolist() + Q.tolist()` — a Python list
concatenation of the rows of `Y` with the rows of `Q`. -/
def buildWlabels (Y Q : Mat) : Mat := Y ++ Q

/-- Applying a permutation (given as the list of source indices) to the
rows of a matrix; `sklearn.utils.shuffle` applies one such permutation
jointly to both of its arguments. -/
def applyPerm (p : List ℕ) (A : Mat) : Mat := p.map fun i => A.getD i []

/-- Failure conditions of `mixmatch_ot1d`. -/
inductive Err where
  | invalidArgument : Err
  | indexError : Err
deriving DecidableEq, Repr

/-- Observable invocations of the external collaborators. -/
inductive Event where
  | predict : Mat → Event
  | mixupCall : Mat → Mat → Mat → Mat → ℚ → ℕ → Event
deriving DecidableEq, Repr

/-- `Event.mixupCall` recogniser. -/
def Event.isMixup : Event → Bool
  | Event.mixupCall _ _ _ _ _ _ => true
  | _ => false

/-- Line 87: `Xhat = X + generate_noise(X, stddev=stddev)`. -/
def mm_Xhat (X : Mat) (stddev : ℚ) (g : RNG) : Mat :=
  matAdd X (generate_noise X stddev g).1

/-- Line 90: `Uaugs = noisy_augment(U, stddev=stddev, K=naug)`, drawn from
the stream state left by the `Xhat` noise draw. -/
def mm_Uaugs (X U : Mat) (stddev : ℚ) (naug : ℕ) (g : RNG) : List Mat :=
  (noisy_augment U stddev naug (generate_noise X stddev g).2).1

/-- `mixmatch_ot1d(model, X, Y, U, stddev, alpha, K, naug)` of
`src/mixmatch.py`, lines 57–122, with the noise stream `g` and the shuffle
permutation `perm` explicit.  Returns the result (or the failure) paired
with the trace of external invocations, in program order. -/
def mixmatch_ot1d (model : Mat → Mat)
    (mixup : Mat → Mat → Mat → Mat → ℚ → ℕ → Mat × Mat)
    (perm : List ℕ) (X Y U : Mat) (stddev alpha : ℚ) (K naug : ℕ)
    (g : RNG) : Except Err (Mat × Mat × Mat × Mat) × List Event :=
  -- Xhat = X + generate_noise(X, stddev=stddev)
  let Xhat := mm_Xhat X stddev g
  -- Uaugs = noisy_augment(U, stddev=stddev, K=naug)
  let Uaugs := mm_Uaugs X U stddev naug g
  -- Uhat = Uaugs[-1]  (IndexError on an empty list, before any
  -- predictor call)
  match Uaugs.getLast? with
  | none => (Except.error Err.indexError, [])
  | some Uhat =>
    -- preds = list(map(modeln, Uaugs)); Q = np.concatenate(preds, axis=1);
    -- Q.sort(axis=1)
    let Q := aggregateQ model Uaugs
    let predEvents := Uaugs.map Event.predict
    -- W = np.concatenate((Xhat, Uhat), axis=0)
    let W := buildW Xhat Uhat
    -- Wlabels = np.array(Y.tolist() + Q.tolist())
    let Wlabels := buildWlabels Y Q
    -- W, Wlabels = shuffle(W, Wlabels): sklearn first checks the two
    -- arguments have the same number of rows, then applies one joint
    -- permutation
    if W.length = Wlabels.length then
      let Ws := applyPerm perm W
      let Wls := applyPerm perm Wlabels
      -- l = len(W) // 2
      let l := Ws.length / 2
      -- Xprime, Yprime = mixup_ot1d(Xhat, W[:l], Y, Wlabels[:l], alpha, K)
      let r1 := mixup Xhat (Ws.take l) Y (Wls.take l) alpha K
      -- Uprime, Qprime = mixup_ot1d(Uhat, W[l:], Q, Wlabels[l:], alpha, K)
      let r2 := mixup Uhat (Ws.drop l) Q (Wls.drop l) alpha K
      (Except.ok (r1.1, r1.2, r2.1, r2.2),
       predEvents ++
         [Event.mixupCall Xhat (Ws.take l) Y (Wls.take l) alpha K,
          Event.mixupCall Uhat (Ws.drop l) Q (Wls.drop l) alpha K])
    else
      (Except.error Err.invalidArgument, predEvents)

/-! ### Basic lemmas about the embedded operations -/

theorem length_normalSample (n m : ℕ) (s : ℚ) (g : RNG) :
    ((normalSample n m s g).1).length = n := by
  simp [normalSample]

theorem length_generate_noise (X : Mat) (s : ℚ) (g : RNG) :
    ((generate_noise X s g).1).length = X.length := by
  simp [generate_noise, length_normalSample]

theorem length_matAdd (A B : Mat) :
    (matAdd A B).length = min A.length B.length := by
  simp [matAdd]

theorem length_mm_Xhat (X : Mat) (s : ℚ) (g : RNG) :
    (mm_Xhat X s g).length = X.length := by
  simp [mm_Xhat, length_matAdd, length_generate_noise]

theorem length_noisy_augment (X : Mat) (s : ℚ) (K : ℕ) (g : RNG) :
    ((noisy_augment X s K g).1).length = K := by
  induction K generalizing g with
  | zero => rfl
  | succ k ih => simp [noisy_augment, ih]

theorem length_mm_Uaugs (X U : Mat) (s : ℚ) (naug : ℕ) (g : RNG) :
    (mm_Uaugs X U s naug g).length = naug := by
  simp [mm_Uaugs, length_noisy_augment]

theorem mem_noisy_augment_length (X : Mat) (s : ℚ) (K : ℕ) (g : RNG) :
    ∀ M ∈ (noisy_augment X s K g).1, M.length = X.length := by
  induction K generalizing g with
  | zero => simp [noisy_augment]
  | succ k ih =>
    intro M hM
    simp only [noisy_augment, List.mem_cons] at hM
    rcases hM with h | h
    · subst h; simp [length_matAdd, length_generate_noise]
    · exact ih _ M h

theorem mem_mm_Uaugs_length (X U : Mat) (s : ℚ) (naug : ℕ) (g : RNG) :
    ∀ M ∈ mm_Uaugs X U s naug g, M.length = U.length := by
  intro M hM
  exact mem_noisy_augment_length U s naug _ M hM

/-- Every element of a `zipWith` comes from a pair of elements of the two
inputs. -/
theorem exists_of_mem_zipWith {α β γ : Type} {f : α → β → γ} :
    ∀ {l₁ : List α} {l₂ : List β} {x : γ}, x ∈ List.zipWith f l₁ l₂ →
      ∃ a ∈ l₁, ∃ b ∈ l₂, x = f a b := by
  intro l₁
  induction l₁ with
  | nil => simp
  | cons a l ih =>
    intro l₂ x hx
    cases l₂ with
    | nil => simp at hx
    | cons b l' =>
      simp only [List.zipWith, List.mem_cons] at hx
      rcases hx with h | h
      · exact ⟨a, by simp, b, by simp, h⟩
      · obtain ⟨a', ha', b', hb', hx⟩ := ih h
        exact ⟨a', by simp [ha'], b', by simp [hb'], hx⟩

/-- `np.concatenate(axis=1)` of matrices that all have `n` rows has `n`
rows. -/
theorem hconcat_length (n : ℕ) :
    ∀ L : List Mat, L ≠ [] → (∀ M ∈ L, M.length = n) →
      (hconcat L).length = n := by
  intro L
  induction L with
  | nil => simp
  | cons A rest ih =>
    intro _ h
    cases rest with
    | nil => simpa using h A (by simp)
    | cons B rest' =>
      have hr := ih (by simp) (fun M hM => h M (by simp [hM]))
      simp only [hconcat, List.length_zipWith, hr, h A (by simp)]
      omega

/-- `np.concatenate(axis=1)` of `k` matrices of shape `(n, 1)` has rows of
length `k`. -/
theorem hconcat_row_length (n : ℕ) :
    ∀ L : List Mat, L ≠ [] →
      (∀ M ∈ L, M.length = n ∧ ∀ r ∈ M, r.length = 1) →
      ∀ r ∈ hconcat L, r.length = L.length := by
  intro L
  induction L with
  | nil => simp
  | cons A rest ih =>
    intro _ h
    cases rest with
    | nil =>
      intro r hr
      simpa using (h A (by simp)).2 r hr
    | cons B rest' =>
      intro r hr
      simp only [hconcat] at hr
      obtain ⟨a, ha, c, hc, rfl⟩ := exists_of_mem_zipWith hr
      have h1 : a.length = 1 := (h A (by simp)).2 a ha
      have h2 : c.length = (B :: rest').length :=
        ih (by simp) (fun M hM => h M (by simp [hM])) c hc
      simp only [List.length_append, h1, h2, List.length_cons]
      omega


/-- Adding a matrix whose rows are at least as long as the corresponding
rows of `A` preserves the shape of `A`. -/
theorem shapeL_matAdd (A B : Mat)
    (h : List.Forall₂ (fun r t => r.length ≤ t.length) A B) :
    shapeL (matAdd A B) = shapeL A := by
  induction h with
  | nil => rfl
  | @cons a b A' B' hr htail ih =>
    simp only [matAdd, List.zipWith_cons_cons, shapeL, List.map_cons] at *
    rw [List.length_zipWith, Nat.min_eq_left hr, ih]

/-- For a rectangular `X`, every generated noise row is exactly as long as
the matching row of `X`. -/
theorem forall₂_generate_noise (X : Mat) (s : ℚ) (g : RNG) (hX : isRect X) :
    List.Forall₂ (fun r t => r.length ≤ t.length) X (generate_noise X s g).1 := by
  rw [List.forall₂_iff_get]
  refine ⟨by simp [length_generate_noise], ?_⟩
  intro i h1 h2
  have hrow : ((generate_noise X s g).1.get ⟨i, h2⟩).length = matCols X := by
    simp [generate_noise, normalSample, List.get_eq_getElem]
  have hx : (X.get ⟨i, h1⟩).length = matCols X := by
    exact hX _ (X.get_mem i h1)
  rw [hrow, hx]

/-- One noisy copy of a rectangular `X` has the shape of `X`. -/
theorem shapeL_noisy_copy (X : Mat) (s : ℚ) (g : RNG) (hX : isRect X) :
    shapeL (matAdd X (generate_noise X s g).1) = shapeL X :=
  shapeL_matAdd _ _ (forall₂_generate_noise X s g hX)

/-- **C6 (counterexample)**: `noisy_augment(X, stddev, 0)` returns the
empty list — a value — rather than failing with an InvalidArgument
condition: the list comprehension over `range(0)` is simply empty. -/
theorem noisy_augment_K0_returns_value :
    (noisy_augment [[(0:ℚ)]] 0 0 ⟨fun _ => 0, 0⟩).1 = [] := rfl

/-- **C6 (amended)**: for every rectangular array `X` and every `K ≥ 0`,
`noisy_augment(X, stddev, K)` returns a list of exactly `K` elements, each
of the same shape as `X`; for `K < 1` it returns the empty list (it does
not fail). -/
theorem noisy_augment_spec (X : Mat) (s : ℚ) (K : ℕ) (g : RNG)
    (hX : isRect X) :
    ((noisy_augment X s K g).1).length = K ∧
      ∀ M ∈ (noisy_augment X s K g).1, shapeL M = shapeL X := by
  refine ⟨length_noisy_augment X s K g, ?_⟩
  induction K generalizing g with
  | zero => simp [noisy_augment]
  | succ k ih =>
    intro M hM
    simp only [noisy_augment, List.mem_cons] at hM
    rcases hM with h | h
    · subst h; exact shapeL_noisy_copy X s g hX
    · exact ih _ M h

/-- Witness for `noisy_augment_spec` at `X = [[0]]`, `K = 3`. -/
theorem noisy_augment_spec_witness :
    ((noisy_augment [[(0:ℚ)]] 1 3 ⟨fun _ => 0, 0⟩).1).length = 3 ∧
      ∀ M ∈ (noisy_augment [[(0:ℚ)]] 1 3 ⟨fun _ => 0, 0⟩).1,
        shapeL M = shapeL [[(0:ℚ)]] :=
  noisy_augment_spec [[(0:ℚ)]] 1 3 ⟨fun _ => 0, 0⟩ (by decide)

/-- **C10**: with `naug = 0` the augmentation list is empty, so
`Uaugs[-1]` fails with an out-of-bounds (IndexError) condition before the
predictor or the external mixup routine is ever invoked (the trace is
empty), and no value is returned. -/
theorem mixmatch_naug0 (model : Mat → Mat)
    (mixup : Mat → Mat → Mat → Mat → ℚ → ℕ → Mat × Mat)
    (perm : List ℕ) (X Y U : Mat) (s α : ℚ) (K : ℕ) (g : RNG) :
    mixmatch_ot1d model mixup perm X Y U s α K 0 g =
      (Except.error Err.indexError, []) := by
  simp [mixmatch_ot1d, mm_Uaugs, noisy_augment]

/-- With a predictor that returns one label row per input row, the
aggregated pseudo-label matrix has one row per row of `U`. -/
theorem length_aggregateQ (model : Mat → Mat) (X U : Mat) (s : ℚ)
    (naug : ℕ) (g : RNG) (hnaug : 1 ≤ naug)
    (hm : ∀ A : Mat, (model A).length = A.length) :
    (aggregateQ model (mm_Uaugs X U s naug g)).length = U.length := by
  have hne : (mm_Uaugs X U s naug g).map model ≠ [] := by
    intro hcon
    have := congrArg List.length hcon
    simp only [List.length_map, length_mm_Uaugs, List.length_nil] at this
    omega
  have hall : ∀ M ∈ (mm_Uaugs X U s naug g).map model, M.length = U.length := by
    intro M hM
    obtain ⟨A, hA, rfl⟩ := List.mem_map.1 hM
    rw [hm A, mem_mm_Uaugs_length X U s naug g A hA]
  simp only [aggregateQ, sortRows, List.length_map]
  exact hconcat_length U.length _ hne hall

/-- **C3**: for every `naug ≥ 1` and a predictor returning one `(·,1)`
label column per augmented copy, the aggregate pseudo-label matrix `Q`
built inside `mixmatch_ot1d` has `n` rows and `naug` columns, and after
the aggregation step every row of `Q` is in non-decreasing order. -/
theorem aggregateQ_rows_cols_sorted (model : Mat → Mat) (X U : Mat)
    (s : ℚ) (naug n : ℕ) (g : RNG) (hU : U.length = n) (hnaug : 1 ≤ naug)
    (hm : ∀ A : Mat, (model A).length = A.length)
    (hm1 : ∀ A : Mat, ∀ r ∈ model A, r.length = 1) :
    (aggregateQ model (mm_Uaugs X U s naug g)).length = n ∧
    (∀ r ∈ aggregateQ model (mm_Uaugs X U s naug g), r.length = naug) ∧
    (∀ r ∈ aggregateQ model (mm_Uaugs X U s naug g),
      List.Sorted (· ≤ ·) r) := by
  have hne : (mm_Uaugs X U s naug g).map model ≠ [] := by
    intro hcon
    have := congrArg List.length hcon
    simp only [List.length_map, length_mm_Uaugs, List.length_nil] at this
    omega
  have hall2 : ∀ M ∈ (mm_Uaugs X U s naug g).map model,
      M.length = n ∧ ∀ r ∈ M, r.length = 1 := by
    intro M hM
    obtain ⟨A, hA, rfl⟩ := List.mem_map.1 hM
    exact ⟨by rw [hm A, mem_mm_Uaugs_length X U s naug g A hA, hU], hm1 A⟩
  refine ⟨by rw [length_aggregateQ model X U s naug g hnaug hm, hU], ?_, ?_⟩
  · intro r hr
    simp only [aggregateQ, sortRows, List.mem_map] at hr
    obtain ⟨r', hr', rfl⟩ := hr
    rw [sortRow, List.length_insertionSort]
    rw [hconcat_row_length n _ hne hall2 r' hr']
    simp [length_mm_Uaugs]
  · intro r hr
    simp only [aggregateQ, sortRows, List.mem_map] at hr
    obtain ⟨r', hr', rfl⟩ := hr
    exact List.sorted_insertionSort _ r'

/-- Witness for `aggregateQ_rows_cols_sorted`: one unlabelled row,
`naug = 2`, a constant predictor. -/
theorem aggregateQ_rows_cols_sorted_witness :
    (aggregateQ (fun A => A.map fun _ => [(1:ℚ)/2])
        (mm_Uaugs [[(0:ℚ)]] [[(0:ℚ)]] 0 2 ⟨fun _ => 0, 0⟩)).length = 1 ∧
    (∀ r ∈ aggregateQ (fun A => A.map fun _ => [(1:ℚ)/2])
        (mm_Uaugs [[(0:ℚ)]] [[(0:ℚ)]] 0 2 ⟨fun _ => 0, 0⟩), r.length = 2) ∧
    (∀ r ∈ aggregateQ (fun A => A.map fun _ => [(1:ℚ)/2])
        (mm_Uaugs [[(0:ℚ)]] [[(0:ℚ)]] 0 2 ⟨fun _ => 0, 0⟩),
      List.Sorted (· ≤ ·) r) :=
  aggregateQ_rows_cols_sorted (fun A => A.map fun _ => [(1:ℚ)/2])
    [[(0:ℚ)]] [[(0:ℚ)]] 0 2 1 ⟨fun _ => 0, 0⟩ rfl (by decide)
    (by intro A; simp)
    (by intro A r hr; obtain ⟨a, _, rfl⟩ := List.mem_map.1 hr; rfl)

/-- **C2**: in a successful run with `len(X) = len(Y) = len(U) = n` and a
predictor returning one label row per input row, the merge pools satisfy
`len(W) = len(Xhat) + len(Uhat)`, `len(Wlabels) = len(Y) + len(Q)`, and
`len(W) = len(Wlabels)`, all before the shuffle and split steps. -/
theorem merge_pool_row_counts (model : Mat → Mat) (X Y U : Mat) (s : ℚ)
    (naug n : ℕ) (g : RNG) (Uhat : Mat)
    (hX : X.length = n) (hY : Y.length = n) (hU : U.length = n)
    (hnaug : 1 ≤ naug)
    (hm : ∀ A : Mat, (model A).length = A.length)
    (hUhat : (mm_Uaugs X U s naug g).getLast? = some Uhat) :
    (buildW (mm_Xhat X s g) Uhat).length =
      (mm_Xhat X s g).length + Uhat.length ∧
    (buildWlabels Y (aggregateQ model (mm_Uaugs X U s naug g))).length =
      Y.length + (aggregateQ model (mm_Uaugs X U s naug g)).length ∧
    (buildW (mm_Xhat X s g) Uhat).length =
      (buildWlabels Y (aggregateQ model (mm_Uaugs X U s naug g))).length := by
  have hUhatlen : Uhat.length = n := by
    rw [mem_mm_Uaugs_length X U s naug g Uhat
      (List.mem_of_mem_getLast? (Option.mem_def.mpr hUhat)), hU]
  have hQ : (aggregateQ model (mm_Uaugs X U s naug g)).length = n := by
    rw [length_aggregateQ model X U s naug g hnaug hm, hU]
  refine ⟨by simp [buildW], by simp [buildWlabels], ?_⟩
  simp only [buildW, buildWlabels, List.length_append]
  rw [length_mm_Xhat, hX, hY, hUhatlen, hQ]

/-- Witness for `merge_pool_row_counts`: `n = 1`, `naug = 1`, a constant
predictor, the zero noise stream. -/
theorem merge_pool_row_counts_witness :
    (buildW (mm_Xhat [[(0:ℚ)]] 0 ⟨fun _ => 0, 0⟩) [[(0:ℚ)]]).length =
      (mm_Xhat [[(0:ℚ)]] 0 ⟨fun _ => 0, 0⟩).length + ([[(0:ℚ)]] : Mat).length ∧
    (buildWlabels [[(0:ℚ)]]
        (aggregateQ (fun A => A.map fun _ => [(1:ℚ)/2])
          (mm_Uaugs [[(0:ℚ)]] [[(0:ℚ)]] 0 1 ⟨fun _ => 0, 0⟩))).length =
      ([[(0:ℚ)]] : Mat).length +
        (aggregateQ (fun A => A.map fun _ => [(1:ℚ)/2])
          (mm_Uaugs [[(0:ℚ)]] [[(0:ℚ)]] 0 1 ⟨fun _ => 0, 0⟩)).length ∧
    (buildW (mm_Xhat [[(0:ℚ)]] 0 ⟨fun _ => 0, 0⟩) [[(0:ℚ)]]).length =
      (buildWlabels [[(0:ℚ)]]
        (aggregateQ (fun A => A.map fun _ => [(1:ℚ)/2])
          (mm_Uaugs [[(0:ℚ)]] [[(0:ℚ)]] 0 1 ⟨fun _ => 0, 0⟩))).length :=
  merge_pool_row_counts (fun A => A.map fun _ => [(1:ℚ)/2])
    [[(0:ℚ)]] [[(0:ℚ)]] [[(0:ℚ)]] 0 1 1 ⟨fun _ => 0, 0⟩ [[(0:ℚ)]]
    rfl rfl rfl (by decide) (by intro A; simp)
    (by simp [mm_Uaugs, noisy_augment, generate_noise, normalSample, matAdd,
          matCols])

/-- **C7**: the label pool `Wlabels = Y.tolist() + Q.tolist()` is a
rectangular 2-D array exactly when the rows of `Q` (length `naug`) are as
long as the rows of `Y` (length `yc`); in particular, with the default
`naug = 5` and `(n,1)` labels (`yc = 1`) the pool is not a well-formed 2-D
array. -/
theorem wlabels_rect_iff (Y Q : Mat) (yc naug : ℕ)
    (hY : ∀ r ∈ Y, r.length = yc) (hQ : ∀ r ∈ Q, r.length = naug)
    (hYne : Y ≠ []) (hQne : Q ≠ []) :
    (isRect (buildWlabels Y Q) ↔ naug = yc) ∧
      (yc = 1 → naug = 5 → ¬ isRect (buildWlabels Y Q)) := by
  obtain ⟨y0, Y', rfl⟩ := List.exists_cons_of_ne_nil hYne
  obtain ⟨q0, Q', rfl⟩ := List.exists_cons_of_ne_nil hQne
  have hcols : matCols (buildWlabels (y0 :: Y') (q0 :: Q')) = yc := by
    simp [buildWlabels, matCols, hY y0 (by simp)]
  have hiff : isRect (buildWlabels (y0 :: Y') (q0 :: Q')) ↔ naug = yc := by
    constructor
    · intro hrect
      have := hrect q0 (by simp [buildWlabels])
      rw [hcols] at this
      rw [← hQ q0 (by simp), this]
    · intro hk r hr
      rw [hcols]
      rcases List.mem_append.1 hr with h | h
      · exact hY r h
      · rw [hQ r h, hk]
  refine ⟨hiff, ?_⟩
  intro h1 h5 hrect
  have := hiff.1 hrect
  omega

/-- Witness for `wlabels_rect_iff`: `Y = [[0]]`, `Q` a single row of five
pseudo-labels. -/
theorem wlabels_rect_iff_witness :
    (isRect (buildWlabels [[(0:ℚ)]] [[0, 0, 0, 0, 0]]) ↔ 5 = 1) ∧
      (1 = 1 → 5 = 5 → ¬ isRect (buildWlabels [[(0:ℚ)]] [[0, 0, 0, 0, 0]])) :=
  wlabels_rect_iff [[(0:ℚ)]] [[0, 0, 0, 0, 0]] 1 5
    (by intro r hr; simp at hr; simp [hr])
    (by intro r hr; simp at hr; simp [hr])
    (by decide) (by decide)

/-- Characterisation of a successful run: when the augmentation list is
nonempty and the two pool row counts agree, `mixmatch_ot1d` reaches both
external mixup calls and returns their results, with the trace listing
every predictor invocation followed by the two mixup invocations. -/
theorem mixmatch_run_eq (model : Mat → Mat)
    (mixup : Mat → Mat → Mat → Mat → ℚ → ℕ → Mat × Mat)
    (perm : List ℕ) (X Y U : Mat) (s α : ℚ) (K naug : ℕ) (g : RNG)
    (Uhat : Mat)
    (hlast : (mm_Uaugs X U s naug g).getLast? = some Uhat)
    (hlen : (buildW (mm_Xhat X s g) Uhat).length =
      (buildWlabels Y (aggregateQ model (mm_Uaugs X U s naug g))).length) :
    mixmatch_ot1d model mixup perm X Y U s α K naug g =
      (Except.ok
        ((mixup (mm_Xhat X s g)
            ((applyPerm perm (buildW (mm_Xhat X s g) Uhat)).take
              ((applyPerm perm (buildW (mm_Xhat X s g) Uhat)).length / 2))
            Y
            ((applyPerm perm (buildWlabels Y
                (aggregateQ model (mm_Uaugs X U s naug g)))).take
              ((applyPerm perm (buildW (mm_Xhat X s g) Uhat)).length / 2))
            α K).1,
         (mixup (mm_Xhat X s g)
            ((applyPerm perm (buildW (mm_Xhat X s g) Uhat)).take
              ((applyPerm perm (buildW (mm_Xhat X s g) Uhat)).length / 2))
            Y
            ((applyPerm perm (buildWlabels Y
                (aggregateQ model (mm_Uaugs X U s naug g)))).take
              ((applyPerm perm (buildW (mm_Xhat X s g) Uhat)).length / 2))
            α K).2,
         (mixup Uhat
            ((applyPerm perm (buildW (mm_Xhat X s g) Uhat)).drop
              ((applyPerm perm (buildW (mm_Xhat X s g) Uhat)).length / 2))
            (aggregateQ model (mm_Uaugs X U s naug g))
            ((applyPerm perm (buildWlabels Y
                (aggregateQ model (mm_Uaugs X U s naug g)))).drop
              ((applyPerm perm (buildW (mm_Xhat X s g) Uhat)).length / 2))
            α K).1,
         (mixup Uhat
            ((applyPerm perm (buildW (mm_Xhat X s g) Uhat)).drop
              ((applyPerm perm (buildW (mm_Xhat X s g) Uhat)).length / 2))
            (aggregateQ model (mm_Uaugs X U s naug g))
            ((applyPerm perm (buildWlabels Y
                (aggregateQ model (mm_Uaugs X U s naug g)))).drop
              ((applyPerm perm (buildW (mm_Xhat X s g) Uhat)).length / 2))
            α K).2),
       (mm_Uaugs X U s naug g).map Event.predict ++
         [Event.mixupCall (mm_Xhat X s g)
            ((applyPerm perm (buildW (mm_Xhat X s g) Uhat)).take
              ((applyPerm perm (buildW (mm_Xhat X s g) Uhat)).length / 2))
            Y
            ((applyPerm perm (buildWlabels Y
                (aggregateQ model (mm_Uaugs X U s naug g)))).take
              ((applyPerm perm (buildW (mm_Xhat X s g) Uhat)).length / 2))
            α K,
          Event.mixupCall Uhat
            ((applyPerm perm (buildW (mm_Xhat X s g) Uhat)).drop
              ((applyPerm perm (buildW (mm_Xhat X s g) Uhat)).length / 2))
            (aggregateQ model (mm_Uaugs X U s naug g))
            ((applyPerm perm (buildWlabels Y
                (aggregateQ model (mm_Uaugs X U s naug g)))).drop
              ((applyPerm perm (buildW (mm_Xhat X s g) Uhat)).length / 2))
            α K]) := by
  simp only [mixmatch_ot1d, hlast]
  rw [if_pos hlen]

/-- Characterisation of a run whose pool row counts disagree: the sklearn
shuffle's consistent-length check fails, after every predictor call but
before any mixup call. -/
theorem mixmatch_mismatch_run_eq (model : Mat → Mat)
    (mixup : Mat → Mat → Mat → Mat → ℚ → ℕ → Mat × Mat)
    (perm : List ℕ) (X Y U : Mat) (s α : ℚ) (K naug : ℕ) (g : RNG)
    (Uhat : Mat)
    (hlast : (mm_Uaugs X U s naug g).getLast? = some Uhat)
    (hlen : (buildW (mm_Xhat X s g) Uhat).length ≠
      (buildWlabels Y (aggregateQ model (mm_Uaugs X U s naug g))).length) :
    mixmatch_ot1d model mixup perm X Y U s α K naug g =
      (Except.error Err.invalidArgument,
       (mm_Uaugs X U s naug g).map Event.predict) := by
  simp only [mixmatch_ot1d, hlast]
  rw [if_neg hlen]

/-- **C1 (counterexample)**: with `len(X) = 1 ≠ 2 = len(Y)` the call does
fail with an InvalidArgument condition, but only at the shuffle's
consistent-length check — the trace already contains a predictor
invocation, so the failure is *not* raised before the predictor is
invoked. -/
theorem mixmatch_mismatch_counterexample :
    mixmatch_ot1d (fun A => A.map fun _ => [(0:ℚ)])
        (fun _ _ _ _ _ _ => ([], [])) []
        [[(0:ℚ)]] [[(0:ℚ)], [(0:ℚ)]] [[(0:ℚ)]] 0 0 1 1 ⟨fun _ => 0, 0⟩ =
      (Except.error Err.invalidArgument, [Event.predict [[(0:ℚ)]]]) := by
  simp [mixmatch_ot1d, mm_Uaugs, mm_Xhat, noisy_augment, generate_noise,
    normalSample, matAdd, matCols, aggregateQ, sortRows, sortRow, hconcat,
    buildW, buildWlabels]

/-- **C1 (amended)**: for every predictor returning one label row per
input row, arrays with `len(X) ≠ len(Y)` and `naug ≥ 1`, the call raises
an InvalidArgument condition before the external mixup routine is invoked
(the trace contains no mixup event) — but after the predictor has been
invoked on every augmented copy. -/
theorem mixmatch_mismatch_error (model : Mat → Mat)
    (mixup : Mat → Mat → Mat → Mat → ℚ → ℕ → Mat × Mat)
    (perm : List ℕ) (X Y U : Mat) (s α : ℚ) (K naug : ℕ) (g : RNG)
    (hnaug : 1 ≤ naug)
    (hm : ∀ A : Mat, (model A).length = A.length)
    (hmis : X.length ≠ Y.length) :
    (mixmatch_ot1d model mixup perm X Y U s α K naug g).1 =
      Except.error Err.invalidArgument ∧
    (mixmatch_ot1d model mixup perm X Y U s α K naug g).2 =
      (mm_Uaugs X U s naug g).map Event.predict ∧
    ∀ e ∈ (mixmatch_ot1d model mixup perm X Y U s α K naug g).2,
      e.isMixup = false := by
  have hne : mm_Uaugs X U s naug g ≠ [] := by
    intro hcon
    have := congrArg List.length hcon
    simp only [length_mm_Uaugs, List.length_nil] at this
    omega
  obtain ⟨Uhat, hlast⟩ : ∃ Uh, (mm_Uaugs X U s naug g).getLast? = some Uh :=
    ⟨_, List.getLast?_eq_getLast_of_ne_nil hne⟩
  have hUhatlen : Uhat.length = U.length :=
    mem_mm_Uaugs_length X U s naug g Uhat
      (List.mem_of_mem_getLast? (Option.mem_def.mpr hlast))
  have hlen : (buildW (mm_Xhat X s g) Uhat).length ≠
      (buildWlabels Y (aggregateQ model (mm_Uaugs X U s naug g))).length := by
    simp only [buildW, buildWlabels, List.length_append, length_mm_Xhat,
      hUhatlen, length_aggregateQ model X U s naug g hnaug hm]
    omega
  rw [mixmatch_mismatch_run_eq model mixup perm X Y U s α K naug g Uhat
    hlast hlen]
  refine ⟨rfl, rfl, ?_⟩
  intro e he
  obtain ⟨A, _, rfl⟩ := List.mem_map.1 he
  rfl

/-- Witness for `mixmatch_mismatch_error` at a concrete mismatched pair. -/
theorem mixmatch_mismatch_error_witness :
    (mixmatch_ot1d (fun A => A.map fun _ => [(1:ℚ)])
        (fun _ _ _ _ _ _ => ([], [])) [0]
        [[(1:ℚ)]] [[(1:ℚ)], [(1:ℚ)]] [[(1:ℚ)]] 0 0 2 1 ⟨fun _ => 0, 0⟩).1 =
      Except.error Err.invalidArgument ∧
    (mixmatch_ot1d (fun A => A.map fun _ => [(1:ℚ)])
        (fun _ _ _ _ _ _ => ([], [])) [0]
        [[(1:ℚ)]] [[(1:ℚ)], [(1:ℚ)]] [[(1:ℚ)]] 0 0 2 1 ⟨fun _ => 0, 0⟩).2 =
      (mm_Uaugs [[(1:ℚ)]] [[(1:ℚ)]] 0 1 ⟨fun _ => 0, 0⟩).map Event.predict ∧
    ∀ e ∈ (mixmatch_ot1d (fun A => A.map fun _ => [(1:ℚ)])
        (fun _ _ _ _ _ _ => ([], [])) [0]
        [[(1:ℚ)]] [[(1:ℚ)], [(1:ℚ)]] [[(1:ℚ)]] 0 0 2 1 ⟨fun _ => 0, 0⟩).2,
      e.isMixup = false :=
  mixmatch_mismatch_error (fun A => A.map fun _ => [(1:ℚ)])
    (fun _ _ _ _ _ _ => ([], [])) [0]
    [[(1:ℚ)]] [[(1:ℚ)], [(1:ℚ)]] [[(1:ℚ)]] 0 0 2 1 ⟨fun _ => 0, 0⟩
    (by decide) (by intro A; simp) (by decide)

/-- Predictor events pass the not-mixup filter unchanged. -/
theorem filter_predict_not_mixup (L : List Mat) :
    (L.map Event.predict).filter (fun e => !e.isMixup) =
      L.map Event.predict := by
  induction L with
  | nil => rfl
  | cons a t ih => simp [Event.isMixup, ih]

/-- Predictor events are removed by the mixup filter. -/
theorem filter_predict_mixup (L : List Mat) :
    (L.map Event.predict).filter (fun e => e.isMixup) = [] := by
  induction L with
  | nil => rfl
  | cons a t ih => simp [Event.isMixup, ih]

/-- **C4**: for every `naug ≥ 1`, the unlabelled anchor used as data in
the second mixup call is exactly the last generated noisy copy of `U`
(`Uaugs[-1]`, the hypothesis `hlast`), while the predictor is invoked on
*all* `naug` copies — the predictor part of the trace is the map of
`Event.predict` over the whole augmentation list, last copy included. -/
theorem mixmatch_anchor_last (model : Mat → Mat)
    (mixup : Mat → Mat → Mat → Mat → ℚ → ℕ → Mat × Mat)
    (perm : List ℕ) (X Y U : Mat) (s α : ℚ) (K naug : ℕ) (g : RNG)
    (n : ℕ) (Uhat : Mat)
    (hX : X.length = n) (hY : Y.length = n) (hU : U.length = n)
    (hnaug : 1 ≤ naug)
    (hm : ∀ A : Mat, (model A).length = A.length)
    (hlast : (mm_Uaugs X U s naug g).getLast? = some Uhat) :
    ((mixmatch_ot1d model mixup perm X Y U s α K naug g).2.filter
        (fun e => !e.isMixup) =
      (mm_Uaugs X U s naug g).map Event.predict) ∧
    ∃ pool1 plab1 pool2 plab2,
      (mixmatch_ot1d model mixup perm X Y U s α K naug g).2.filter
          (fun e => e.isMixup) =
        [Event.mixupCall (mm_Xhat X s g) pool1 Y plab1 α K,
         Event.mixupCall Uhat pool2
           (aggregateQ model (mm_Uaugs X U s naug g)) plab2 α K] := by
  have hUhatlen : Uhat.length = U.length :=
    mem_mm_Uaugs_length X U s naug g Uhat
      (List.mem_of_mem_getLast? (Option.mem_def.mpr hlast))
  have hQlen := length_aggregateQ model X U s naug g hnaug hm
  have hlen : (buildW (mm_Xhat X s g) Uhat).length =
      (buildWlabels Y (aggregateQ model (mm_Uaugs X U s naug g))).length := by
    simp only [buildW, buildWlabels, List.length_append, length_mm_Xhat,
      hUhatlen, hQlen]
    omega
  rw [mixmatch_run_eq model mixup perm X Y U s α K naug g Uhat hlast hlen]
  constructor
  · simp only [List.filter_append, filter_predict_not_mixup]
    simp [Event.isMixup]
  · refine ⟨(applyPerm perm (buildW (mm_Xhat X s g) Uhat)).take
        ((applyPerm perm (buildW (mm_Xhat X s g) Uhat)).length / 2),
      (applyPerm perm (buildWlabels Y
          (aggregateQ model (mm_Uaugs X U s naug g)))).take
        ((applyPerm perm (buildW (mm_Xhat X s g) Uhat)).length / 2),
      (applyPerm perm (buildW (mm_Xhat X s g) Uhat)).drop
        ((applyPerm perm (buildW (mm_Xhat X s g) Uhat)).length / 2),
      (applyPerm perm (buildWlabels Y
          (aggregateQ model (mm_Uaugs X U s naug g)))).drop
        ((applyPerm perm (buildW (mm_Xhat X s g) Uhat)).length / 2), ?_⟩
    simp only [List.filter_append, filter_predict_mixup]
    simp [Event.isMixup]

/-- Witness for `mixmatch_anchor_last` at a concrete one-row batch with
`naug = 2`. -/
theorem mixmatch_anchor_last_witness :
    ((mixmatch_ot1d (fun A => A.map fun _ => [(0:ℚ)])
        (fun a _ c _ _ _ => (a, c)) [0, 1]
        [[(0:ℚ)]] [[(0:ℚ)]] [[(0:ℚ)]] 0 0 1 2 ⟨fun _ => 0, 0⟩).2.filter
        (fun e => !e.isMixup) =
      (mm_Uaugs [[(0:ℚ)]] [[(0:ℚ)]] 0 2 ⟨fun _ => 0, 0⟩).map
        Event.predict) ∧
    ∃ pool1 plab1 pool2 plab2,
      ((mixmatch_ot1d (fun A => A.map fun _ => [(0:ℚ)])
          (fun a _ c _ _ _ => (a, c)) [0, 1]
          [[(0:ℚ)]] [[(0:ℚ)]] [[(0:ℚ)]] 0 0 1 2 ⟨fun _ => 0, 0⟩).2.filter
          (fun e => e.isMixup) =
        [Event.mixupCall (mm_Xhat [[(0:ℚ)]] 0 ⟨fun _ => 0, 0⟩) pool1
           [[(0:ℚ)]] plab1 0 1,
         Event.mixupCall [[(0:ℚ)]] pool2
           (aggregateQ (fun A => A.map fun _ => [(0:ℚ)])
             (mm_Uaugs [[(0:ℚ)]] [[(0:ℚ)]] 0 2 ⟨fun _ => 0, 0⟩)) plab2
           0 1]) :=
  mixmatch_anchor_last (fun A => A.map fun _ => [(0:ℚ)])
    (fun a _ c _ _ _ => (a, c)) [0, 1]
    [[(0:ℚ)]] [[(0:ℚ)]] [[(0:ℚ)]] 0 0 1 2 ⟨fun _ => 0, 0⟩ 1 [[(0:ℚ)]]
    rfl rfl rfl (by decide) (by intro A; simp)
    (by simp [mm_Uaugs, noisy_augment, generate_noise, normalSample, matAdd,
          matCols])

/-- **C5**: in a successful invocation the shuffled pool `W`/`Wlabels` is
split at `len(W) // 2`; the first halves are passed together with `Xhat`
and `Y` to the first external mixup call, the second halves together with
`Uhat` and `Q` to the second call, in that order, with `alpha` and `K`
forwarded unchanged — the equation below spells out both the returned
value and the two recorded mixup invocations. -/
theorem mixmatch_split_calls (model : Mat → Mat)
    (mixup : Mat → Mat → Mat → Mat → ℚ → ℕ → Mat × Mat)
    (perm : List ℕ) (X Y U : Mat) (s α : ℚ) (K naug : ℕ) (g : RNG)
    (n : ℕ) (Uhat : Mat)
    (hX : X.length = n) (hY : Y.length = n) (hU : U.length = n)
    (hnaug : 1 ≤ naug)
    (hm : ∀ A : Mat, (model A).length = A.length)
    (hperm : perm.length = X.length + U.length)
    (hlast : (mm_Uaugs X U s naug g).getLast? = some Uhat) :
    mixmatch_ot1d model mixup perm X Y U s α K naug g =
      (let Xhat := mm_Xhat X s g
       let Q := aggregateQ model (mm_Uaugs X U s naug g)
       let W := buildW Xhat Uhat
       let Wl := buildWlabels Y Q
       let Ws := applyPerm perm W
       let Wls := applyPerm perm Wl
       let l := W.length / 2
       (Except.ok ((mixup Xhat (Ws.take l) Y (Wls.take l) α K).1,
                   (mixup Xhat (Ws.take l) Y (Wls.take l) α K).2,
                   (mixup Uhat (Ws.drop l) Q (Wls.drop l) α K).1,
                   (mixup Uhat (Ws.drop l) Q (Wls.drop l) α K).2),
        (mm_Uaugs X U s naug g).map Event.predict ++
          [Event.mixupCall Xhat (Ws.take l) Y (Wls.take l) α K,
           Event.mixupCall Uhat (Ws.drop l) Q (Wls.drop l) α K])) := by
  have hUhatlen : Uhat.length = U.length :=
    mem_mm_Uaugs_length X U s naug g Uhat
      (List.mem_of_mem_getLast? (Option.mem_def.mpr hlast))
  have hQlen := length_aggregateQ model X U s naug g hnaug hm
  have hlen : (buildW (mm_Xhat X s g) Uhat).length =
      (buildWlabels Y (aggregateQ model (mm_Uaugs X U s naug g))).length := by
    simp only [buildW, buildWlabels, List.length_append, length_mm_Xhat,
      hUhatlen, hQlen]
    omega
  have hWs : (applyPerm perm (buildW (mm_Xhat X s g) Uhat)).length =
      (buildW (mm_Xhat X s g) Uhat).length := by
    simp only [applyPerm, List.length_map, hperm, buildW, List.length_append,
      length_mm_Xhat, hUhatlen]
  have h := mixmatch_run_eq model mixup perm X Y U s α K naug g Uhat
    hlast hlen
  rw [hWs] at h
  exact h

/-- Witness for `mixmatch_split_calls` at a concrete one-row batch with a
two-element shuffle permutation. -/
theorem mixmatch_split_calls_witness :
    mixmatch_ot1d (fun A => A.map fun _ => [(0:ℚ)])
        (fun a _ c _ _ _ => (a, c)) [1, 0]
        [[(0:ℚ)]] [[(0:ℚ)]] [[(0:ℚ)]] 0 0 1 1 ⟨fun _ => 0, 0⟩ =
      (let Xhat := mm_Xhat [[(0:ℚ)]] 0 ⟨fun _ => 0, 0⟩
       let Q := aggregateQ (fun A => A.map fun _ => [(0:ℚ)])
         (mm_Uaugs [[(0:ℚ)]] [[(0:ℚ)]] 0 1 ⟨fun _ => 0, 0⟩)
       let W := buildW Xhat [[(0:ℚ)]]
       let Wl := buildWlabels [[(0:ℚ)]] Q
       let Ws := applyPerm [1, 0] W
       let Wls := applyPerm [1, 0] Wl
       let l := W.length / 2
       (Except.ok
          (((fun (a : Mat) (_ : Mat) (c : Mat) (_ : Mat) (_ : ℚ) (_ : ℕ) =>
              ((a, c) : Mat × Mat)) Xhat (Ws.take l) [[(0:ℚ)]] (Wls.take l)
              0 1).1,
           ((fun (a : Mat) (_ : Mat) (c : Mat) (_ : Mat) (_ : ℚ) (_ : ℕ) =>
              ((a, c) : Mat × Mat)) Xhat (Ws.take l) [[(0:ℚ)]] (Wls.take l)
              0 1).2,
           ((fun (a : Mat) (_ : Mat) (c : Mat) (_ : Mat) (_ : ℚ) (_ : ℕ) =>
              ((a, c) : Mat × Mat)) [[(0:ℚ)]] (Ws.drop l) Q (Wls.drop l)
              0 1).1,
           ((fun (a : Mat) (_ : Mat) (c : Mat) (_ : Mat) (_ : ℚ) (_ : ℕ) =>
              ((a, c) : Mat × Mat)) [[(0:ℚ)]] (Ws.drop l) Q (Wls.drop l)
              0 1).2),
        (mm_Uaugs [[(0:ℚ)]] [[(0:ℚ)]] 0 1 ⟨fun _ => 0, 0⟩).map
          Event.predict ++
          [Event.mixupCall Xhat (Ws.take l) [[(0:ℚ)]] (Wls.take l) 0 1,
           Event.mixupCall [[(0:ℚ)]] (Ws.drop l) Q (Wls.drop l) 0 1])) :=
  mixmatch_split_calls (fun A => A.map fun _ => [(0:ℚ)])
    (fun a _ c _ _ _ => (a, c)) [1, 0]
    [[(0:ℚ)]] [[(0:ℚ)]] [[(0:ℚ)]] 0 0 1 1 ⟨fun _ => 0, 0⟩ 1 [[(0:ℚ)]]
    rfl rfl rfl (by decide) (by intro A; simp) (by decide)
    (by simp [mm_Uaugs, noisy_augment, generate_noise, normalSample, matAdd,
          matCols])

/-- **C9**: the embedded `mixmatch_ot1d` is a pure function of the
predictor, the mixup routine, the shuffle permutation, the noise stream
and the input arrays; fixing the noise and shuffle sources (identical
seeds) and using a deterministic predictor, two invocations on identical
inputs produce identical four-tuple outputs. -/
theorem mixmatch_deterministic (model : Mat → Mat)
    (mixup : Mat → Mat → Mat → Mat → ℚ → ℕ → Mat × Mat)
    (perm1 perm2 : List ℕ) (X Y U : Mat) (s α : ℚ) (K naug : ℕ)
    (g1 g2 : RNG) (hg : g1 = g2) (hp : perm1 = perm2) :
    mixmatch_ot1d model mixup perm1 X Y U s α K naug g1 =
      mixmatch_ot1d model mixup perm2 X Y U s α K naug g2 := by
  rw [hg, hp]

/-- Witness for `mixmatch_deterministic` at a concrete seeded run. -/
theorem mixmatch_deterministic_witness :
    mixmatch_ot1d (fun A => A.map fun _ => [(0:ℚ)])
        (fun a _ c _ _ _ => (a, c)) [1, 0]
        [[(0:ℚ)]] [[(0:ℚ)]] [[(0:ℚ)]] 0 0 1 1 ⟨fun k => k, 0⟩ =
      mixmatch_ot1d (fun A => A.map fun _ => [(0:ℚ)])
        (fun a _ c _ _ _ => (a, c)) [1, 0]
        [[(0:ℚ)]] [[(0:ℚ)]] [[(0:ℚ)]] 0 0 1 1 ⟨fun k => k, 0⟩ :=
  mixmatch_deterministic (fun A => A.map fun _ => [(0:ℚ)])
    (fun a _ c _ _ _ => (a, c)) [1, 0] [1, 0]
    [[(0:ℚ)]] [[(0:ℚ)]] [[(0:ℚ)]] 0 0 1 1 ⟨fun k => k, 0⟩ ⟨fun k => k, 0⟩
    rfl rfl

/-!
### A store model for the mutation claim

To talk about mutation at all, the arrays that `mixmatch_ot1d` touches are
placed in an explicit store of allocated numpy arrays.  Every numpy
expression in the source allocates a fresh array (a fresh cell appended to
the store); the single in-place operation of the function, `Q.sort(axis=1)`
on line 100, is an update of the cell that line 98 just allocated for `Q`.
The inputs `X`, `Y`, `U` are pre-existing cells `iX`, `iY`, `iU` of the
initial store.
-/

/-- The store of allocated arrays, addressed by index. -/
abbrev Store := List Mat

/-- Allocating a fresh array: a new cell appended at the end. -/
def alloc (σ : Store) (A : Mat) : ℕ × Store := (σ.length, σ ++ [A])

/-- Reading the array in cell `i`. -/
def readS (σ : Store) (i : ℕ) : Mat := σ.getD i []

/-- Allocating a list of arrays in order, returning their cell indices. -/
def allocList : Store → List Mat → List ℕ × Store
  | σ, [] => ([], σ)
  | σ, A :: rest =>
      let p := alloc σ A
      let q := allocList p.2 rest
      (p.1 :: q.1, q.2)

/-- `mixmatch_ot1d` over the store: the same algorithm as `mixmatch_ot1d`,
but with every array held in a store cell, every numpy result allocated
fresh, and the in-place `Q.sort(axis=1)` performed as the single `set` on
the freshly allocated `Q` cell.  Arguments are cell indices; the result is
the four output cell indices (or the failure) with the final store. -/
def mixmatch_ot1d_store (model : Mat → Mat)
    (mixup : Mat → Mat → Mat → Mat → ℚ → ℕ → Mat × Mat)
    (perm : List ℕ) (iX iY iU : ℕ) (stddev alpha : ℚ) (K naug : ℕ)
    (g : RNG) (σ0 : Store) : Except Err (ℕ × ℕ × ℕ × ℕ) × Store :=
  let X := readS σ0 iX
  let U := readS σ0 iU
  -- Xhat = X + generate_noise(X, stddev=stddev): one fresh array
  let pXhat := alloc σ0 (mm_Xhat X stddev g)
  -- Uaugs = noisy_augment(U, stddev=stddev, K=naug): naug fresh arrays
  let pUaugs := allocList pXhat.2 (mm_Uaugs X U stddev naug g)
  -- Uhat = Uaugs[-1]
  match pUaugs.1.getLast? with
  | none => (Except.error Err.indexError, pUaugs.2)
  | some iUhat =>
    -- preds = list(map(modeln, Uaugs)): one fresh array per copy, the
    -- predictor reading each copy from its cell
    let pPreds := allocList pUaugs.2
      (pUaugs.1.map fun i => model (readS pUaugs.2 i))
    -- Q = np.concatenate(preds, axis=1): one fresh array
    let pQ := alloc pPreds.2 (hconcat (pPreds.1.map (readS pPreds.2)))
    -- Q.sort(axis=1): the single in-place mutation, of the fresh cell pQ.1
    let σ1 := pQ.2.set pQ.1 (sortRows (readS pQ.2 pQ.1))
    -- W = np.concatenate((Xhat, Uhat), axis=0): fresh
    let pW := alloc σ1 (buildW (readS σ1 pXhat.1) (readS σ1 iUhat))
    -- Wlabels = np.array(Y.tolist() + Q.tolist()): fresh
    let pWl := alloc pW.2 (buildWlabels (readS pW.2 iY) (readS pW.2 pQ.1))
    -- W, Wlabels = shuffle(W, Wlabels): length check, then two fresh arrays
    if (readS pWl.2 pW.1).length = (readS pWl.2 pWl.1).length then
      let pWs := alloc pWl.2 (applyPerm perm (readS pWl.2 pW.1))
      let pWls := alloc pWs.2 (applyPerm perm (readS pWs.2 pWl.1))
      let l := (readS pWls.2 pWs.1).length / 2
      let r1 := mixup (readS pWls.2 pXhat.1)
        ((readS pWls.2 pWs.1).take l) (readS pWls.2 iY)
        ((readS pWls.2 pWls.1).take l) alpha K
      let pXp := alloc pWls.2 r1.1
      let pYp := alloc pXp.2 r1.2
      let r2 := mixup (readS pYp.2 iUhat) ((readS pYp.2 pWs.1).drop l)
        (readS pYp.2 pQ.1) ((readS pYp.2 pWls.1).drop l) alpha K
      let pUp := alloc pYp.2 r2.1
      let pQp := alloc pUp.2 r2.2
      (Except.ok (pXp.1, pYp.1, pUp.1, pQp.1), pQp.2)
    else
      (Except.error Err.invalidArgument, pWl.2)

/-- `σ` extends `σ0`: at least as many cells, agreeing on every cell of
`σ0`. -/
def FrameOn (σ0 σ : Store) : Prop :=
  σ0.length ≤ σ.length ∧ ∀ j < σ0.length, readS σ j = readS σ0 j

theorem frameOn_refl (σ : Store) : FrameOn σ σ :=
  ⟨le_refl _, fun _ _ => rfl⟩

theorem frameOn_trans {σ0 σ1 σ2 : Store} (h1 : FrameOn σ0 σ1)
    (h2 : FrameOn σ1 σ2) : FrameOn σ0 σ2 :=
  ⟨le_trans h1.1 h2.1,
   fun j hj => (h2.2 j (lt_of_lt_of_le hj h1.1)).trans (h1.2 j hj)⟩

theorem frameOn_alloc (σ : Store) (A : Mat) : FrameOn σ (alloc σ A).2 := by
  refine ⟨by simp [alloc], ?_⟩
  intro j hj
  simp only [alloc, readS, List.getD_eq_getElem?_getD]
  rw [List.getElem?_append_left hj]

theorem frameOn_allocList (σ : Store) (L : List Mat) :
    FrameOn σ (allocList σ L).2 := by
  induction L generalizing σ with
  | nil => exact frameOn_refl σ
  | cons A rest ih => exact frameOn_trans (frameOn_alloc σ A) (ih _)

theorem frameOn_alloc_step {σ0 σ : Store} (A : Mat) (h : FrameOn σ0 σ) :
    FrameOn σ0 (alloc σ A).2 :=
  frameOn_trans h (frameOn_alloc σ A)

theorem frameOn_allocList_step {σ0 σ : Store} (L : List Mat)
    (h : FrameOn σ0 σ) : FrameOn σ0 (allocList σ L).2 :=
  frameOn_trans h (frameOn_allocList σ L)

theorem frameOn_set {σ0 σ : Store} {i : ℕ} {A : Mat}
    (hi : σ0.length ≤ i) (h : FrameOn σ0 σ) :
    FrameOn σ0 (σ.set i A) := by
  refine ⟨by rw [List.length_set]; exact h.1, ?_⟩
  intro j hj
  rw [← h.2 j hj]
  simp only [readS, List.getD_eq_getElem?_getD]
  rw [List.getElem?_set_ne (by omega : i ≠ j)]

/-- From `FrameOn σ0 σ`, the index of the next allocation in `σ` lies
outside `σ0`. -/
theorem le_alloc_fst {σ0 σ : Store} (A : Mat) (h : FrameOn σ0 σ) :
    σ0.length ≤ (alloc σ A).1 :=
  h.1

/-- **C8**: `mixmatch_ot1d` does not mutate its inputs — every cell of the
initial store (in particular the cells of `X`, `Y`, `U`) holds the same
array after the call as before it, even though the algorithm performs one
in-place update (the row-wise sort of the locally allocated `Q` cell,
which the proof shows lands outside the initial store); and on success the
four returned outputs are newly allocated cells. -/
theorem mixmatch_store_frame (model : Mat → Mat)
    (mixup : Mat → Mat → Mat → Mat → ℚ → ℕ → Mat × Mat)
    (perm : List ℕ) (iX iY iU : ℕ) (s α : ℚ) (K naug : ℕ) (g : RNG)
    (σ0 : Store) :
    (∀ j < σ0.length,
      readS (mixmatch_ot1d_store model mixup perm iX iY iU s α K naug
        g σ0).2 j = readS σ0 j) ∧
    (∀ a b c d,
      (mixmatch_ot1d_store model mixup perm iX iY iU s α K naug g σ0).1 =
        Except.ok (a, b, c, d) →
      σ0.length ≤ a ∧ σ0.length ≤ b ∧ σ0.length ≤ c ∧ σ0.length ≤ d) := by
  have key : FrameOn σ0 (mixmatch_ot1d_store model mixup perm iX iY iU
      s α K naug g σ0).2 ∧
      (∀ a b c d,
        (mixmatch_ot1d_store model mixup perm iX iY iU s α K naug
          g σ0).1 = Except.ok (a, b, c, d) →
        σ0.length ≤ a ∧ σ0.length ≤ b ∧ σ0.length ≤ c ∧
          σ0.length ≤ d) := by
    simp only [mixmatch_ot1d_store]
    split
    · constructor
      · exact frameOn_allocList_step _ (frameOn_alloc_step _
          (frameOn_refl σ0))
      · intro a b c d h
        exact Except.noConfusion h
    · split
      · constructor
        · refine frameOn_alloc_step _ (frameOn_alloc_step _
            (frameOn_alloc_step _ (frameOn_alloc_step _
              (frameOn_alloc_step _ (frameOn_alloc_step _
                (frameOn_alloc_step _ (frameOn_alloc_step _
                  (frameOn_set ?_ ?_))))))))
          · refine le_alloc_fst _ ?_
            exact frameOn_allocList_step _ (frameOn_allocList_step _
              (frameOn_alloc_step _ (frameOn_refl σ0)))
          · exact frameOn_alloc_step _ (frameOn_allocList_step _
              (frameOn_allocList_step _ (frameOn_alloc_step _
                (frameOn_refl σ0))))
        · intro a b c d h
          injection h with h2
          simp only [Prod.mk.injEq] at h2
          obtain ⟨ha, hb, hc, hd⟩ := h2
          subst ha; subst hb; subst hc; subst hd
          refine ⟨?_, ?_, ?_, ?_⟩
          · refine le_alloc_fst _ ?_
            refine frameOn_alloc_step _ (frameOn_alloc_step _
              (frameOn_alloc_step _ (frameOn_alloc_step _
                (frameOn_set ?_ ?_))))
            · refine le_alloc_fst _ ?_
              exact frameOn_allocList_step _ (frameOn_allocList_step _
                (frameOn_alloc_step _ (frameOn_refl σ0)))
            · exact frameOn_alloc_step _ (frameOn_allocList_step _
                (frameOn_allocList_step _ (frameOn_alloc_step _
                  (frameOn_refl σ0))))
          · refine le_alloc_fst _ ?_
            refine frameOn_alloc_step _ (frameOn_alloc_step _
              (frameOn_alloc_step _ (frameOn_alloc_step _
                (frameOn_alloc_step _ (frameOn_set ?_ ?_)))))
            · refine le_alloc_fst _ ?_
              exact frameOn_allocList_step _ (frameOn_allocList_step _
                (frameOn_alloc_step _ (frameOn_refl σ0)))
            · exact frameOn_alloc_step _ (frameOn_allocList_step _
                (frameOn_allocList_step _ (frameOn_alloc_step _
                  (frameOn_refl σ0))))
          · refine le_alloc_fst _ ?_
            refine frameOn_alloc_step _ (frameOn_alloc_step _
              (frameOn_alloc_step _ (frameOn_alloc_step _
                (frameOn_alloc_step _ (frameOn_alloc_step _
                  (frameOn_set ?_ ?_))))))
            · refine le_alloc_fst _ ?_
              exact frameOn_allocList_step _ (frameOn_allocList_step _
                (frameOn_alloc_step _ (frameOn_refl σ0)))
            · exact frameOn_alloc_step _ (frameOn_allocList_step _
                (frameOn_allocList_step _ (frameOn_alloc_step _
                  (frameOn_refl σ0))))
          · refine le_alloc_fst _ ?_
            refine frameOn_alloc_step _ (frameOn_alloc_step _
              (frameOn_alloc_step _ (frameOn_alloc_step _
                (frameOn_alloc_step _ (frameOn_alloc_step _
                  (frameOn_alloc_step _ (frameOn_set ?_ ?_)))))))
            · refine le_alloc_fst _ ?_
              exact frameOn_allocList_step _ (frameOn_allocList_step _
                (frameOn_alloc_step _ (frameOn_refl σ0)))
            · exact frameOn_alloc_step _ (frameOn_allocList_step _
                (frameOn_allocList_step _ (frameOn_alloc_step _
                  (frameOn_refl σ0))))
      · constructor
        · refine frameOn_alloc_step _ (frameOn_alloc_step _
            (frameOn_set ?_ ?_))
          · refine le_alloc_fst _ ?_
            exact frameOn_allocList_step _ (frameOn_allocList_step _
              (frameOn_alloc_step _ (frameOn_refl σ0)))
          · exact frameOn_alloc_step _ (frameOn_allocList_step _
              (frameOn_allocList_step _ (frameOn_alloc_step _
                (frameOn_refl σ0))))
        · intro a b c d h
          exact Except.noConfusion h
  exact ⟨key.1.2, key.2⟩

/-- Witness for `mixmatch_store_frame`: a three-cell initial store holding
`X`, `Y`, `U`; cell 0 is unchanged by a concrete successful run. -/
theorem mixmatch_store_frame_witness :
    readS (mixmatch_ot1d_store (fun A => A.map fun _ => [(0:ℚ)])
      (fun a _ c _ _ _ => (a, c)) [1, 0] 0 1 2 0 0 1 1 ⟨fun _ => 0, 0⟩
      [[[(1:ℚ)]], [[(2:ℚ)]], [[(3:ℚ)]]]).2 0 =
      readS [[[(1:ℚ)]], [[(2:ℚ)]], [[(3:ℚ)]]] 0 :=
  (mixmatch_store_frame (fun A => A.map fun _ => [(0:ℚ)])
    (fun a _ c _ _ _ => (a, c)) [1, 0] 0 1 2 0 0 1 1 ⟨fun _ => 0, 0⟩
    [[[(1:ℚ)]], [[(2:ℚ)]], [[(3:ℚ)]]]).1 0 (by decide)
